import Mathlib

/-!
# Verification of the relative-panel overlay program

Shallow embedding, in Lean 4, of the two Rust source files of the
`relative-panel-macos-poc` repository (`src/main.rs` and
`src/window_search.rs`), together with proofs about the embedded
functions.

Modelling conventions:

* Rust `String` / `&str` values are embedded as `List Char`.
* The machine doubles (`f64`) that hold window coordinates are embedded as
  exact numbers: `Int` for the values carried by the compositor's bounds
  dictionaries (screen coordinates are integral points in this program's
  usage), and `ℚ` for the panel-geometry arithmetic, where the literals
  `0.8`, `0.9` and `0.3` appear and are embedded as the exact rationals
  `8/10`, `9/10` and `3/10`.
* Calls into the host windowing system (CoreGraphics / AppKit) are
  embedded by passing the host's answers in explicitly: the window list
  is an `Option (List (Option CGWindowRecord))` (the outer `Option` is
  nullability of the `CFArray`, the inner one nullability of each record),
  allocator results are `AllocOutcomes`, and the `NSRunningApplication`
  bundle lookup is a function parameter.
* Fallible Rust code returning `Result<_, String>` becomes
  `Except (List Char) _`; `Option` stays `Option`.
-/

/-! ## Decimal digits: formatting and parsing

`main.rs` formats bounds with `format!("x:{}, y:{}, w:{}, h:{}", ...)`
(Rust `Display` prints an integral double as its plain decimal numeral)
and parses them back with `str::parse` (`parse_bounds_values`). The
embedded formatter and parser below realise those two operations on the
`Int` embedding of the double values. -/

/-- One decimal digit rendered as its character, as Rust `Display` does. -/
def digitToChar : Nat → Char
  | 0 => '0'
  | 1 => '1'
  | 2 => '2'
  | 3 => '3'
  | 4 => '4'
  | 5 => '5'
  | 6 => '6'
  | 7 => '7'
  | 8 => '8'
  | 9 => '9'
  | _ => '*'

/-- One character read back as a decimal digit, as Rust `str::parse` does;
`none` on a non-digit character. -/
def charToDigit (c : Char) : Option Nat :=
  if c = '0' then some 0
  else if c = '1' then some 1
  else if c = '2' then some 2
  else if c = '3' then some 3
  else if c = '4' then some 4
  else if c = '5' then some 5
  else if c = '6' then some 6
  else if c = '7' then some 7
  else if c = '8' then some 8
  else if c = '9' then some 9
  else none

/-- Big-endian decimal numeral of a natural number (fuelled recursion;
the fuel `n + 1` always suffices because `n / 10 < n` for `n ≥ 10`). -/
def natToCharsAux : Nat → Nat → List Char
  | 0, _ => []
  | fuel + 1, n =>
    if n < 10 then [digitToChar n]
    else natToCharsAux fuel (n / 10) ++ [digitToChar (n % 10)]

/-- Decimal numeral of a natural number, as Rust `Display` prints it. -/
def natToChars (n : Nat) : List Char :=
  natToCharsAux (n + 1) n

/-- Decimal numeral of an integer, as Rust `Display` prints an
integral `f64`: a minus sign followed by the numeral of the magnitude
for negative values, the plain numeral otherwise. -/
def intToChars (n : Int) : List Char :=
  if n < 0 then '-' :: natToChars n.natAbs else natToChars n.toNat

/-- Left-to-right accumulation of decimal digits (Horner), the loop at
the heart of integer-valued `str::parse`; `none` on a non-digit. -/
def parseDigitsAux : List Char → Nat → Option Nat
  | [], acc => some acc
  | c :: cs, acc =>
    match charToDigit c with
    | some d => parseDigitsAux cs (10 * acc + d)
    | none => none

/-- `str::parse` on the `Int` embedding of a double value: an optional
leading minus sign followed by a nonempty digit string. -/
def parseNumChars (cs : List Char) : Option Int :=
  match cs with
  | [] => none
  | c :: rest =>
    if c = '-' then
      if rest.isEmpty then none
      else
        match parseDigitsAux rest 0 with
        | some d => some (-(d : Int))
        | none => none
    else
      match parseDigitsAux cs 0 with
      | some d => some ((d : Int))
      | none => none

/-! ## Splitting on a separator

Rust's `str::split(", ")` from `parse_bounds_values`, embedded on
`List Char`: `breakOn` finds the first occurrence of the separator,
`splitOnSep` iterates it (with fuel; `length + 1` always suffices for a
nonempty separator). -/

/-- `strip_pre sep part` models Rust `str::strip_prefix`: `some rest`
when `part = sep ++ rest`, otherwise `none`. -/
def strip_pre (sep part : List Char) : Option (List Char) :=
  if sep.isPrefixOf part then some (part.drop sep.length) else none

/-- Split `s` at the first occurrence of `sep`: `some (before, after)`
with `s = before ++ sep ++ after` and no occurrence inside `before`,
or `none` when `sep` does not occur in `s`. -/
def breakOn (sep : List Char) : List Char → Option (List Char × List Char)
  | [] => none
  | c :: rest =>
    if sep.isPrefixOf (c :: rest) then some ([], (c :: rest).drop sep.length)
    else
      match breakOn sep rest with
      | some (a, b) => some (c :: a, b)
      | none => none

def splitOnSepFuel (sep : List Char) : Nat → List Char → List (List Char)
  | 0, s => [s]
  | fuel + 1, s =>
    match breakOn sep s with
    | none => [s]
    | some (a, b) => a :: splitOnSepFuel sep fuel b

/-- Rust `str::split` on a nonempty separator. -/
def splitOnSep (sep s : List Char) : List (List Char) :=
  splitOnSepFuel sep (s.length + 1) s

/-- Interleave a separator between parts (the shape of the formatted
bounds string, used to reason about `splitOnSep`). -/
def joinSep (sep : List Char) : List (List Char) → List Char
  | [] => []
  | [p] => p
  | p :: ps => p ++ sep ++ joinSep sep ps
theorem breakOn_of_head_not_mem {c : Char} {sep' s : List Char} (h : c ∉ s) :
    breakOn (c :: sep') s = none := by
  induction s with
  | nil => rfl
  | cons d rest ih =>
    have hcd : (c == d) = false := by
      simp only [List.mem_cons, not_or] at h
      simp [beq_eq_false_iff_ne, h.1]
    have hnp : (c :: sep').isPrefixOf (d :: rest) = false := by
      simp [List.isPrefixOf, hcd]
    simp only [breakOn, hnp, Bool.false_eq_true, if_false]
    rw [ih (fun hm => h (List.mem_cons_of_mem d hm))]

/-! ## `parse_bounds_values` and the bounds formatter (`src/main.rs`)

`parse_bounds_values` (main.rs:239-258) starts from `x = y = w = h = 0.0`,
splits the input on `", "`, and for each piece updates the matching
coordinate when the piece starts with `"x:"`, `"y:"`, `"w:"` or `"h:"`,
propagating a parse failure of such a value as `None` (the `?` operator).
`parse_bounds_from_dict` (main.rs:347-357) produces the string
`format!("x:{}, y:{}, w:{}, h:{}", x, y, width, height)`. -/

/-- The separator `", "` of the bounds string. -/
def sepCS : List Char := [',', ' ']

/-- The four coordinates accumulated by `parse_bounds_values`. -/
structure BoundsVals where
  x : Int
  y : Int
  w : Int
  h : Int
deriving DecidableEq, Repr

/-- One iteration of the `for part in bounds_str.split(", ")` loop of
`parse_bounds_values`: try the four recognised key markers in order and
update the corresponding coordinate; a piece with none of them leaves the
accumulator unchanged; a failing numeric parse aborts with `none`. -/
def applyPart (acc : BoundsVals) (part : List Char) : Option BoundsVals :=
  match strip_pre ['x', ':'] part with
  | some v => (parseNumChars v).map (fun n => { acc with x := n })
  | none =>
  match strip_pre ['y', ':'] part with
  | some v => (parseNumChars v).map (fun n => { acc with y := n })
  | none =>
  match strip_pre ['w', ':'] part with
  | some v => (parseNumChars v).map (fun n => { acc with w := n })
  | none =>
  match strip_pre ['h', ':'] part with
  | some v => (parseNumChars v).map (fun n => { acc with h := n })
  | none => some acc

/-- `parse_bounds_values` of `src/main.rs`. -/
def parse_bounds_values (bounds_str : List Char) : Option BoundsVals :=
  (splitOnSep sepCS bounds_str).foldlM applyPart ⟨0, 0, 0, 0⟩

/-- The bounds string built by `parse_bounds_from_dict`:
`format!("x:{}, y:{}, w:{}, h:{}", x, y, w, h)`. -/
def formatBounds (x y w h : Int) : List Char :=
  ['x', ':'] ++ intToChars x ++ sepCS ++
  ['y', ':'] ++ intToChars y ++ sepCS ++
  ['w', ':'] ++ intToChars w ++ sepCS ++
  ['h', ':'] ++ intToChars h

/-! ## Window filtering (`src/window_search.rs` and `src/main.rs`)

`should_ignore_app` lowercases the owning-app name and asks whether any
ignore-list entry occurs in it as a substring (`str::contains`); it is
textually identical in the two source files. Rust's `to_lowercase` is
embedded as per-character `Char.toLower`, and the `HashSet` of ignored
names as a list (only `any`, an order-independent operation, is applied
to it). -/

/-- `should_ignore_app` (window_search.rs:222-227, main.rs:380-385). -/
def should_ignore_app (app_name : List Char) (ignored_apps : List (List Char)) : Bool :=
  let app_lower := app_name.map Char.toLower
  ignored_apps.any (fun ig => decide (ig <:+: app_lower))

/-- `get_ignored_apps` (main.rs:260-272). -/
def get_ignored_apps : List (List Char) :=
  ["notification center".toList, "notificationcenter".toList, "sketchybar".toList,
   "borders".toList, "control center".toList, "controlcenter".toList,
   "dock".toList, "menubar".toList, "spotlight".toList]

/-- The string literals of the two source files, as character lists. -/
def unknownName : List Char := "Unknown".toList

def noTitleName : List Char := "No Title".toList

def openTitle : List Char := "Open".toList

def boundsNotFound : List Char := "bounds_not_found".toList

def failedListMsg : List Char := "Failed to get window list".toList

/-- The `kCGWindowBounds` sub-dictionary: each key independently present
or absent (`get_dict_number_safe` returning `Some`/`None`). -/
structure BoundsDict where
  X : Option Int
  Y : Option Int
  Width : Option Int
  Height : Option Int
deriving DecidableEq, Repr

/-- One non-null record of the compositor's window list, with every
field optional, as each `CFDictionaryGetValue` lookup (or its conversion)
can fail independently. -/
structure CGWindowRecord where
  kCGWindowOwnerName : Option (List Char)
  kCGWindowName : Option (List Char)
  kCGWindowBounds : Option BoundsDict
  kCGWindowNumber : Option Int
  kCGWindowOwnerPID : Option Int
  kCGWindowLayer : Option Int
  kCGWindowAlpha : Option ℚ
  kCGWindowSharingState : Option Int
  kCGWindowMemoryUsage : Option Int
  kCGWindowIsOnscreen : Option ℚ
deriving DecidableEq, Repr

/-- `parse_bounds_from_dict` (main.rs:347-357, window_search.rs:189-199):
format the four coordinates (each defaulting to `0.0`) when the bounds
dictionary exists, else the sentinel `"bounds_not_found"`. -/
def parse_bounds_from_dict (bounds : Option BoundsDict) : List Char :=
  match bounds with
  | some b => formatBounds (b.X.getD 0) (b.Y.getD 0) (b.Width.getD 0) (b.Height.getD 0)
  | none => boundsNotFound

/-- `WindowInfo` (window_search.rs:34-47). -/
structure WindowInfo where
  title : List Char
  app_name : List Char
  bundle_identifier : Option (List Char)
  bounds : List Char
  window_number : Int
  pid : Int
  layer : Int
  alpha : ℚ
  sharing_state : Int
  memory_usage : Int
  is_onscreen : Bool
deriving DecidableEq, Repr

/-- `WindowSearchResults` (window_search.rs:49-53). -/
structure WindowSearchResults where
  total_windows : Nat
  matched_windows : List WindowInfo
deriving DecidableEq, Repr

/-- `WindowSearchCriteria` (window_search.rs:55-60). -/
structure WindowSearchCriteria where
  title : Option (List Char)
  app_name : Option (List Char)
  ignored_apps : List (List Char)
deriving DecidableEq, Repr

/-- `WindowSearchCriteria::matches` (window_search.rs:91-109). -/
def WindowSearchCriteria.matches (c : WindowSearchCriteria)
    (window_title window_app_name : List Char) : Bool :=
  if should_ignore_app window_app_name c.ignored_apps then false
  else
    let title_matches := (c.title.map (fun t => window_title == t)).getD true
    let app_name_matches := (c.app_name.map (fun a => window_app_name == a)).getD true
    title_matches && app_name_matches

/-- The `WindowInfo` built for a matched record in `find_windows`
(window_search.rs:150-177); the `NSRunningApplication` bundle-identifier
lookup is the function parameter `bundle_lookup`. -/
def mkWindowInfo (bundle_lookup : Int → Option (List Char)) (w : CGWindowRecord)
    (title app_name : List Char) : WindowInfo :=
  let pid := w.kCGWindowOwnerPID.getD 0
  { title := title
    app_name := app_name
    bundle_identifier := bundle_lookup pid
    bounds := parse_bounds_from_dict w.kCGWindowBounds
    window_number := w.kCGWindowNumber.getD 0
    pid := pid
    layer := w.kCGWindowLayer.getD 0
    alpha := w.kCGWindowAlpha.getD 1
    sharing_state := w.kCGWindowSharingState.getD 0
    memory_usage := w.kCGWindowMemoryUsage.getD 0
    is_onscreen := w.kCGWindowIsOnscreen.getD 0 != 0 }

/-- The body of the `for i in 0..count` loop of `find_windows`
(window_search.rs:129-178), accumulating `total_processed` and
`matched_windows`. -/
def processSearchRecord (criteria : WindowSearchCriteria)
    (bundle_lookup : Int → Option (List Char))
    (acc : Nat × List WindowInfo) (w? : Option CGWindowRecord) : Nat × List WindowInfo :=
  match w? with
  | none => acc
  | some w =>
    let app_name := w.kCGWindowOwnerName.getD []
    if should_ignore_app app_name criteria.ignored_apps then acc
    else
      let total := acc.1 + 1
      let title := w.kCGWindowName.getD []
      if criteria.matches title app_name then
        (total, acc.2 ++ [mkWindowInfo bundle_lookup w title app_name])
      else
        (total, acc.2)

/-- `find_windows` (window_search.rs:118-187). -/
def find_windows (criteria : WindowSearchCriteria)
    (bundle_lookup : Int → Option (List Char))
    (window_list : Option (List (Option CGWindowRecord))) :
    Except (List Char) WindowSearchResults :=
  match window_list with
  | none => Except.error failedListMsg
  | some l =>
    let res := l.foldl (processSearchRecord criteria bundle_lookup) (0, [])
    Except.ok ⟨res.1, res.2⟩

/-- `OpenWindow` (main.rs:280-287). -/
structure OpenWindow where
  title : List Char
  app_name : List Char
  bounds : List Char
  window_number : Int
  pid : Int
deriving DecidableEq, Repr

/-- `OpenWindowResults` (main.rs:274-278). -/
structure OpenWindowResults where
  total_windows : Nat
  open_windows : List OpenWindow
deriving DecidableEq, Repr

/-- The body of the `for i in 0..count` loop of `find_open_windows`
(main.rs:300-336). -/
def processOpenRecord (ignored_apps : List (List Char)) (acc : Nat × List OpenWindow)
    (w? : Option CGWindowRecord) : Nat × List OpenWindow :=
  match w? with
  | none => acc
  | some w =>
    let app_name := w.kCGWindowOwnerName.getD unknownName
    if should_ignore_app app_name ignored_apps then acc
    else
      let total := acc.1 + 1
      let title := w.kCGWindowName.getD noTitleName
      if title = openTitle then
        (total, acc.2 ++ [{ title := title
                            app_name := app_name
                            bounds := parse_bounds_from_dict w.kCGWindowBounds
                            window_number := w.kCGWindowNumber.getD 0
                            pid := w.kCGWindowOwnerPID.getD 0 }])
      else (total, acc.2)

/-- `find_open_windows` (main.rs:289-345). -/
def find_open_windows (ignored_apps : List (List Char))
    (window_list : Option (List (Option CGWindowRecord))) :
    Except (List Char) OpenWindowResults :=
  match window_list with
  | none => Except.error failedListMsg
  | some l =>
    let res := l.foldl (processOpenRecord ignored_apps) (0, [])
    Except.ok ⟨res.1, res.2⟩

/-! ## The overlay panel (`create_overlay_panel`, main.rs:112-237)

The AppKit objects built by `create_overlay_panel` are embedded as plain
records capturing exactly the attributes the code sets. Each of the four
nil-checked allocations (`NSPanel`, the content `NSView`, the label
`NSButton`, the close `NSButton`) is an outcome supplied by the host,
passed in as `AllocOutcomes`; the first three failing abort with `None`,
while a failed close-button allocation merely skips that subview. -/

/-- The label text prefixed to the app name on the overlay's button. -/
def panelDetectedLabel : List Char := "PANEL DETECTED: ".toList

def closeGlyph : List Char := "✕".toList

def overlayWindowTitle : List Char := "PANEL DETECTOR OVERLAY".toList

structure NSRect where
  x : ℚ
  y : ℚ
  width : ℚ
  height : ℚ
deriving DecidableEq, Repr

/-- The window style masks this program can mention; the code always
passes `NSBorderlessWindowMask`. -/
inductive NSWindowStyleMask where
  | borderless
  | titled
deriving DecidableEq, Repr

/-- The only target/action pair the code wires up: the close button
sends `orderOut:` to the panel. -/
inductive ButtonAction where
  | orderOut
deriving DecidableEq, Repr

structure NSButtonModel where
  frame : NSRect
  buttonTitle : List Char
  targetIsPanel : Bool
  action : Option ButtonAction
deriving DecidableEq, Repr

structure NSViewModel where
  frame : NSRect
  subviews : List NSButtonModel
deriving DecidableEq, Repr

structure NSPanelModel where
  frame : NSRect
  level : Int
  styleMask : NSWindowStyleMask
  isOpaque : Bool
  alphaValue : ℚ
  hasShadow : Bool
  movableByWindowBackground : Bool
  windowTitle : List Char
  contentView : NSViewModel
deriving DecidableEq, Repr

/-- Which of the four nil-checked allocations succeed. -/
structure AllocOutcomes where
  panel : Bool
  content_view : Bool
  button : Bool
  close_button : Bool
deriving DecidableEq, Repr

/-- `create_overlay_panel` (main.rs:112-237): parse the window's bounds
string (`?` propagates `None`), convert the top-left-origin `y` to the
bottom-left-origin `ns_y = screen_height - cg_y - orig_height`, widen by
the fixed 300-point margin, and build the borderless level-10 panel with
its centered label button and its close button. -/
def create_overlay_panel (window : OpenWindow) (screen_height : ℚ)
    (alloc : AllocOutcomes) : Option NSPanelModel := do
  let v ← parse_bounds_values window.bounds
  let cg_x : ℚ := (v.x : ℚ)
  let cg_y : ℚ := (v.y : ℚ)
  let orig_width : ℚ := (v.w : ℚ)
  let orig_height : ℚ := (v.h : ℚ)
  let ns_y := screen_height - cg_y - orig_height
  let panel_width := orig_width + 300
  let panel_height := orig_height
  let panel_x := cg_x
  let panel_y := ns_y
  let panel_frame : NSRect := ⟨panel_x, panel_y, panel_width, panel_height⟩
  if alloc.panel = false then none else do
  if alloc.content_view = false then none else do
  let content_frame : NSRect := ⟨0, 0, panel_width, panel_height⟩
  let button_width := panel_width * (8 / 10)
  let button_height := panel_height * (3 / 10)
  let button_x := (panel_width - button_width) / 2
  let button_y := (panel_height - button_height) / 2
  if alloc.button = false then none else do
  let label_button : NSButtonModel :=
    { frame := ⟨button_x, button_y, button_width, button_height⟩
      buttonTitle := panelDetectedLabel ++ window.app_name
      targetIsPanel := false
      action := none }
  let close_button_size : ℚ := 30
  let close_button_margin : ℚ := 10
  let close_button : NSButtonModel :=
    { frame := ⟨panel_width - close_button_size - close_button_margin,
                panel_height - close_button_size - close_button_margin,
                close_button_size, close_button_size⟩
      buttonTitle := closeGlyph
      targetIsPanel := true
      action := some ButtonAction.orderOut }
  let subviews :=
    if alloc.close_button then [label_button, close_button] else [label_button]
  some
    { frame := panel_frame
      level := 10
      styleMask := NSWindowStyleMask.borderless
      isOpaque := false
      alphaValue := 9 / 10
      hasShadow := true
      movableByWindowBackground := true
      windowTitle := overlayWindowTitle
      contentView := { frame := content_frame, subviews := subviews } }

/-! ## The panel reconciler

Modelled from the spec: no polling reconciler is present in `src/`
(`main.rs` is the one-shot variant); the spec's Panel Reconciler section
describes it as, on each poll tick, diffing the previous
"window number → displayed overlay" mapping against the newly observed
window-number set, closing overlays for windows that disappeared,
creating overlays for windows newly observed, and leaving the rest
untouched. -/

/-- Modelled from the spec: the outcome of one poll tick — the overlays
that were closed, and the updated mapping of displayed overlays. -/
structure ReconcileOutcome (α : Type) where
  closed : List (Int × α)
  displayed : List (Int × α)
deriving DecidableEq, Repr

/-- Modelled from the spec: one poll tick of the Panel Reconciler.
`prev` is the previous "window number → displayed overlay" mapping,
`observed` the newly observed window-number set, and `create` the
overlay construction for a newly observed window number. -/
def reconcile {α : Type} (create : Int → α) (prev : List (Int × α))
    (observed : List Int) : ReconcileOutcome α :=
  let closed := prev.filter (fun e => decide (e.1 ∉ observed))
  let kept := prev.filter (fun e => decide (e.1 ∈ observed))
  let fresh := (observed.filter (fun n => decide (n ∉ prev.map Prod.fst))).map
    (fun n => (n, create n))
  ⟨closed, kept ++ fresh⟩

/-! ## Characterising the enumeration loops

Spec-side selectors: which records the spec says survive into the result
lists, and which records the spec says are counted. The theorems below
compare the loops of `find_open_windows` / `find_windows` against them. -/

/-- Spec-side description of the `open_windows` result: a non-null record
whose (defaulted) owning-app name is not ignored and whose (defaulted)
title is exactly `"Open"`, carried to the `OpenWindow` it produces. -/
def selectOpen (ignored_apps : List (List Char)) (w? : Option CGWindowRecord) :
    Option OpenWindow :=
  match w? with
  | none => none
  | some w =>
    let app_name := w.kCGWindowOwnerName.getD unknownName
    if should_ignore_app app_name ignored_apps then none
    else
      let title := w.kCGWindowName.getD noTitleName
      if title = openTitle then
        some { title := title
               app_name := app_name
               bounds := parse_bounds_from_dict w.kCGWindowBounds
               window_number := w.kCGWindowNumber.getD 0
               pid := w.kCGWindowOwnerPID.getD 0 }
      else none

/-- Spec-side description of which records `find_open_windows` counts in
`total_windows`: non-null with a non-ignored owning-app name. -/
def countedOpenRecord (ignored_apps : List (List Char))
    (w? : Option CGWindowRecord) : Bool :=
  match w? with
  | none => false
  | some w => !should_ignore_app (w.kCGWindowOwnerName.getD unknownName) ignored_apps

/-- Spec-side description of the `matched_windows` result of
`find_windows`: a non-null record, not ignored, satisfying the criteria. -/
def selectSearch (criteria : WindowSearchCriteria)
    (bundle_lookup : Int → Option (List Char)) (w? : Option CGWindowRecord) :
    Option WindowInfo :=
  match w? with
  | none => none
  | some w =>
    let app_name := w.kCGWindowOwnerName.getD []
    if should_ignore_app app_name criteria.ignored_apps then none
    else
      let title := w.kCGWindowName.getD []
      if criteria.matches title app_name then
        some (mkWindowInfo bundle_lookup w title app_name)
      else none

/-- Spec-side description of which records `find_windows` counts in
`total_windows`. -/
def countedSearchRecord (criteria : WindowSearchCriteria)
    (w? : Option CGWindowRecord) : Bool :=
  match w? with
  | none => false
  | some w => !should_ignore_app (w.kCGWindowOwnerName.getD []) criteria.ignored_apps

/-- A sample matched record for concrete witnesses. -/
def sampleOpenRecord : CGWindowRecord :=
  { kCGWindowOwnerName := some ("TestApp".toList)
    kCGWindowName := some openTitle
    kCGWindowBounds := some { X := some 10, Y := some 20, Width := some 300, Height := some 200 }
    kCGWindowNumber := some 42
    kCGWindowOwnerPID := some 7
    kCGWindowLayer := some 0
    kCGWindowAlpha := some 1
    kCGWindowSharingState := some 0
    kCGWindowMemoryUsage := some 1024
    kCGWindowIsOnscreen := some 1 }

/-- A sample record owned by the Dock (ignored) for concrete witnesses. -/
def sampleDockRecord : CGWindowRecord :=
  { kCGWindowOwnerName := some ("Dock".toList)
    kCGWindowName := some openTitle
    kCGWindowBounds := none
    kCGWindowNumber := some 5
    kCGWindowOwnerPID := some 99
    kCGWindowLayer := some 20
    kCGWindowAlpha := some 1
    kCGWindowSharingState := some 0
    kCGWindowMemoryUsage := some 0
    kCGWindowIsOnscreen := some 1 }

/-- A sample record whose title is not exactly `"Open"`. -/
def sampleOtherRecord : CGWindowRecord :=
  { kCGWindowOwnerName := some ("TextEdit".toList)
    kCGWindowName := some ("Open File".toList)
    kCGWindowBounds := some { X := some 1, Y := some 2, Width := some 3, Height := some 4 }
    kCGWindowNumber := some 8
    kCGWindowOwnerPID := some 21
    kCGWindowLayer := some 0
    kCGWindowAlpha := some 1
    kCGWindowSharingState := some 0
    kCGWindowMemoryUsage := some 64
    kCGWindowIsOnscreen := some 1 }

def sampleWindowList : List (Option CGWindowRecord) :=
  [some sampleOpenRecord, none, some sampleDockRecord, some sampleOtherRecord]

/-- The label button `create_overlay_panel` builds: 80% of the panel
width, 30% of its height, centered in the panel. -/
def labelButtonOf (window : OpenWindow) (v : BoundsVals) : NSButtonModel :=
  let pw : ℚ := (v.w : ℚ) + 300
  let ph : ℚ := (v.h : ℚ)
  { frame := ⟨(pw - pw * (8 / 10)) / 2, (ph - ph * (3 / 10)) / 2,
              pw * (8 / 10), ph * (3 / 10)⟩
    buttonTitle := panelDetectedLabel ++ window.app_name
    targetIsPanel := false
    action := none }

/-- The close button `create_overlay_panel` builds: a 30-point square
10 points in from the panel's top-right corner, sending `orderOut:` to
the panel. -/
def closeButtonOf (v : BoundsVals) : NSButtonModel :=
  let pw : ℚ := (v.w : ℚ) + 300
  let ph : ℚ := (v.h : ℚ)
  { frame := ⟨pw - 30 - 10, ph - 30 - 10, 30, 30⟩
    buttonTitle := closeGlyph
    targetIsPanel := true
    action := some ButtonAction.orderOut }

/-- The panel `create_overlay_panel` builds on its success path (all three
mandatory allocations succeeded), as a function of the parsed bounds, the
screen height, and whether the close-button allocation succeeded. -/
def builtPanel (window : OpenWindow) (H : ℚ) (withClose : Bool) (v : BoundsVals) :
    NSPanelModel :=
  let pw : ℚ := (v.w : ℚ) + 300
  let ph : ℚ := (v.h : ℚ)
  { frame := ⟨(v.x : ℚ), H - (v.y : ℚ) - (v.h : ℚ), pw, ph⟩
    level := 10
    styleMask := NSWindowStyleMask.borderless
    isOpaque := false
    alphaValue := 9 / 10
    hasShadow := true
    movableByWindowBackground := true
    windowTitle := overlayWindowTitle
    contentView :=
      { frame := ⟨0, 0, pw, ph⟩
        subviews :=
          if withClose then [labelButtonOf window v, closeButtonOf v]
          else [labelButtonOf window v] } }

/-- A concrete window used in the C7 counterexample and witness. -/
def c7Window : OpenWindow :=
  ⟨openTitle, "TestApp".toList, formatBounds 0 0 100 100, 1, 2⟩

/-! ### Round-trip lemmas for the decimal numeral -/

theorem charToDigit_digitToChar : ∀ d < 10, charToDigit (digitToChar d) = some d := by
  decide

theorem digitToChar_ne_comma : ∀ d < 10, digitToChar d ≠ ',' := by
  decide

theorem digitToChar_ne_dash : ∀ d < 10, digitToChar d ≠ '-' := by
  decide

theorem parseDigitsAux_append (l₁ l₂ : List Char) (acc : Nat) :
    parseDigitsAux (l₁ ++ l₂) acc =
      match parseDigitsAux l₁ acc with
      | some a => parseDigitsAux l₂ a
      | none => none := by
  induction l₁ generalizing acc with
  | nil => simp [parseDigitsAux]
  | cons c cs ih =>
    simp only [List.cons_append, parseDigitsAux]
    cases charToDigit c with
    | none => rfl
    | some d => exact ih _

theorem natToCharsAux_mem {fuel n : Nat} {c : Char} (hc : c ∈ natToCharsAux fuel n) :
    ∃ d < 10, c = digitToChar d := by
  induction fuel generalizing n with
  | zero => simp [natToCharsAux] at hc
  | succ fuel ih =>
    by_cases h : n < 10
    · simp [natToCharsAux, h] at hc
      exact ⟨n, h, hc⟩
    · simp only [natToCharsAux, h, if_false, List.mem_append, List.mem_singleton] at hc
      rcases hc with hc | hc
      · exact ih hc
      · exact ⟨n % 10, Nat.mod_lt _ (by omega), hc⟩

theorem natToCharsAux_parse {fuel : Nat} :
    ∀ {n : Nat}, n < fuel → ∀ acc : Nat,
      parseDigitsAux (natToCharsAux fuel n) acc =
        some (acc * 10 ^ (natToCharsAux fuel n).length + n) := by
  induction fuel with
  | zero => intro n h; omega
  | succ fuel ih =>
    intro n h acc
    by_cases h10 : n < 10
    · simp [natToCharsAux, h10, parseDigitsAux, charToDigit_digitToChar n h10]
      ring
    · have hdiv : n / 10 < fuel := by omega
      simp only [natToCharsAux, h10, if_false]
      rw [parseDigitsAux_append, ih hdiv acc]
      have hm : n % 10 < 10 := Nat.mod_lt _ (by omega)
      simp [parseDigitsAux, charToDigit_digitToChar _ hm]
      have hsum : 10 * (n / 10) + n % 10 = n := Nat.div_add_mod n 10
      set L := (natToCharsAux fuel (n / 10)).length with hL
      calc 10 * (acc * 10 ^ L + n / 10) + n % 10
      _ = acc * (10 ^ L * 10) + (10 * (n / 10) + n % 10) := by ring
      _ = acc * 10 ^ (L + 1) + n := by rw [hsum, pow_succ]

theorem natToChars_parse (n : Nat) :
    parseDigitsAux (natToChars n) 0 = some n := by
  have := @natToCharsAux_parse (n + 1) n (by omega) 0
  simpa [natToChars] using this

theorem natToChars_ne_nil (n : Nat) : natToChars n ≠ [] := by
  unfold natToChars natToCharsAux
  by_cases h : n < 10 <;> simp [h]

theorem natToChars_mem {n : Nat} {c : Char} (hc : c ∈ natToChars n) :
    ∃ d < 10, c = digitToChar d :=
  natToCharsAux_mem hc

theorem comma_not_mem_natToChars (n : Nat) : ',' ∉ natToChars n := by
  intro hc
  obtain ⟨d, hd, he⟩ := natToChars_mem hc
  exact digitToChar_ne_comma d hd he.symm

theorem dash_not_mem_natToChars (n : Nat) : '-' ∉ natToChars n := by
  intro hc
  obtain ⟨d, hd, he⟩ := natToChars_mem hc
  exact digitToChar_ne_dash d hd he.symm

theorem comma_not_mem_intToChars (n : Int) : ',' ∉ intToChars n := by
  unfold intToChars
  by_cases h : n < 0
  · simp only [h, if_true, List.mem_cons]
    rintro (hc | hc)
    · exact absurd hc.symm (by decide)
    · exact comma_not_mem_natToChars _ hc
  · simpa [h] using comma_not_mem_natToChars n.toNat

theorem natToChars_isEmpty (n : Nat) : (natToChars n).isEmpty = false := by
  cases hh : natToChars n with
  | nil => exact absurd hh (natToChars_ne_nil _)
  | cons c cs => rfl

theorem parseNumChars_intToChars (n : Int) :
    parseNumChars (intToChars n) = some n := by
  unfold intToChars
  by_cases h : n < 0
  · simp only [h, if_true, parseNumChars, if_pos rfl, natToChars_isEmpty,
      Bool.false_eq_true, if_false, natToChars_parse]
    congr 1
    omega
  · obtain ⟨c, cs, hcons⟩ : ∃ c cs, natToChars n.toNat = c :: cs := by
      cases hh : natToChars n.toNat with
      | nil => exact absurd hh (natToChars_ne_nil _)
      | cons c cs => exact ⟨c, cs, rfl⟩
    have hdash : c ≠ '-' := by
      intro he
      exact dash_not_mem_natToChars n.toNat (he ▸ (hcons ▸ List.mem_cons_self c cs))
    have hp := natToChars_parse n.toNat
    rw [hcons] at hp
    simp only [h, if_false, hcons, parseNumChars, hdash, if_false, hp]
    congr 1
    omega

theorem breakOn_append {c : Char} {sep' a rest : List Char} (h : c ∉ a) :
    breakOn (c :: sep') (a ++ c :: (sep' ++ rest)) = some (a, rest) := by
  induction a with
  | nil =>
    have hpre : (c :: sep').isPrefixOf (c :: (sep' ++ rest)) = true := by
      simp [List.isPrefixOf_iff_prefix]
    simp only [List.nil_append, breakOn, hpre, if_true]
    simp [List.drop_left]
  | cons d a' ih =>
    have hcd : (c == d) = false := by
      simp only [List.mem_cons, not_or] at h
      simp [beq_eq_false_iff_ne, h.1]
    have hnp : (c :: sep').isPrefixOf (d :: (a' ++ c :: (sep' ++ rest))) = false := by
      simp [List.isPrefixOf, hcd]
    simp only [List.cons_append, breakOn, hnp, Bool.false_eq_true, if_false, List.append_eq]
    rw [ih (fun hm => h (List.mem_cons_of_mem d hm))]

theorem splitOnSepFuel_of_not_mem {c : Char} {sep' s : List Char} {fuel : Nat}
    (h : c ∉ s) (hf : 1 ≤ fuel) :
    splitOnSepFuel (c :: sep') fuel s = [s] := by
  obtain ⟨f, rfl⟩ : ∃ f, fuel = f + 1 := ⟨fuel - 1, by omega⟩
  simp [splitOnSepFuel, breakOn_of_head_not_mem h]

theorem splitOnSepFuel_append {c : Char} {sep' a rest : List Char} {fuel : Nat} (h : c ∉ a) :
    splitOnSepFuel (c :: sep') (fuel + 1) (a ++ c :: (sep' ++ rest)) =
      a :: splitOnSepFuel (c :: sep') fuel rest := by
  simp only [splitOnSepFuel, breakOn_append h]

theorem joinSep_length {c : Char} {sep' : List Char} :
    ∀ parts : List (List Char), parts ≠ [] →
      parts.length ≤ (joinSep (c :: sep') parts).length + 1 := by
  intro parts
  induction parts with
  | nil => intro hne; exact absurd rfl hne
  | cons p ps ih =>
    intro _
    cases ps with
    | nil => simp [joinSep]
    | cons q qs =>
      have hq := ih (by simp)
      have hj : joinSep (c :: sep') (p :: q :: qs) =
          p ++ (c :: sep') ++ joinSep (c :: sep') (q :: qs) := rfl
      rw [hj]
      simp only [List.length_cons, List.length_append] at hq ⊢
      omega

theorem splitOnSepFuel_joinSep {c : Char} {sep' : List Char} :
    ∀ (parts : List (List Char)), (∀ p ∈ parts, c ∉ p) → parts ≠ [] →
      ∀ fuel, parts.length ≤ fuel + 1 →
        splitOnSepFuel (c :: sep') (fuel + 1) (joinSep (c :: sep') parts) = parts := by
  intro parts
  induction parts with
  | nil => intro _ hne; exact absurd rfl hne
  | cons p ps ih =>
    intro hmem _ fuel hfuel
    cases ps with
    | nil =>
      exact splitOnSepFuel_of_not_mem (hmem p (List.mem_cons_self p [])) (by omega)
    | cons q qs =>
      have hj : joinSep (c :: sep') (p :: q :: qs) =
          p ++ c :: (sep' ++ joinSep (c :: sep') (q :: qs)) := by
        simp [joinSep]
      obtain ⟨f, rfl⟩ : ∃ f, fuel = f + 1 := by
        refine ⟨fuel - 1, ?_⟩
        simp only [List.length_cons] at hfuel
        omega
      rw [hj, splitOnSepFuel_append (hmem p (List.mem_cons_self p (q :: qs)))]
      congr 1
      exact ih (fun r hr => hmem r (List.mem_cons_of_mem p hr)) (by simp) f
        (by simp only [List.length_cons] at hfuel ⊢; omega)

theorem splitOnSep_joinSep {c : Char} {sep' : List Char} (parts : List (List Char))
    (hmem : ∀ p ∈ parts, c ∉ p) (hne : parts ≠ []) :
    splitOnSep (c :: sep') (joinSep (c :: sep') parts) = parts := by
  unfold splitOnSep
  exact splitOnSepFuel_joinSep parts hmem hne _
    (by have := @joinSep_length c sep' parts hne; omega)

theorem applyPart_x (acc : BoundsVals) (n : Int) :
    applyPart acc ('x' :: ':' :: intToChars n) = some { acc with x := n } := by
  simp [applyPart, strip_pre, List.isPrefixOf, parseNumChars_intToChars]

theorem applyPart_y (acc : BoundsVals) (n : Int) :
    applyPart acc ('y' :: ':' :: intToChars n) = some { acc with y := n } := by
  simp [applyPart, strip_pre, List.isPrefixOf, parseNumChars_intToChars]

theorem applyPart_w (acc : BoundsVals) (n : Int) :
    applyPart acc ('w' :: ':' :: intToChars n) = some { acc with w := n } := by
  simp [applyPart, strip_pre, List.isPrefixOf, parseNumChars_intToChars]

theorem applyPart_h (acc : BoundsVals) (n : Int) :
    applyPart acc ('h' :: ':' :: intToChars n) = some { acc with h := n } := by
  simp [applyPart, strip_pre, List.isPrefixOf, parseNumChars_intToChars]

theorem splitOnSep_formatBounds (x y w h : Int) :
    splitOnSep sepCS (formatBounds x y w h) =
      ['x' :: ':' :: intToChars x, 'y' :: ':' :: intToChars y,
       'w' :: ':' :: intToChars w, 'h' :: ':' :: intToChars h] := by
  have hjoin : formatBounds x y w h =
      joinSep (',' :: [' '])
        ['x' :: ':' :: intToChars x, 'y' :: ':' :: intToChars y,
         'w' :: ':' :: intToChars w, 'h' :: ':' :: intToChars h] := by
    simp [formatBounds, joinSep, sepCS]
  have hmem : ∀ p ∈ ['x' :: ':' :: intToChars x, 'y' :: ':' :: intToChars y,
      'w' :: ':' :: intToChars w, 'h' :: ':' :: intToChars h], ',' ∉ p := by
    intro p hp
    simp only [List.mem_cons, List.not_mem_nil, or_false] at hp
    rcases hp with rfl | rfl | rfl | rfl <;>
      · intro hc
        simp only [List.mem_cons] at hc
        rcases hc with hc | hc | hc
        · exact absurd hc (by decide)
        · exact absurd hc (by decide)
        · exact comma_not_mem_intToChars _ hc
  show splitOnSep (',' :: [' ']) _ = _
  rw [hjoin]
  exact splitOnSep_joinSep _ hmem (by simp)

theorem parse_bounds_format (x y w h : Int) :
    parse_bounds_values (formatBounds x y w h) = some ⟨x, y, w, h⟩ := by
  unfold parse_bounds_values
  rw [splitOnSep_formatBounds]
  simp [List.foldlM, applyPart_x, applyPart_y, applyPart_w, applyPart_h]

theorem foldl_processOpenRecord_snd (ig : List (List Char)) :
    ∀ (l : List (Option CGWindowRecord)) (n : Nat) (acc : List OpenWindow),
      (l.foldl (processOpenRecord ig) (n, acc)).2 = acc ++ l.filterMap (selectOpen ig) := by
  intro l
  induction l with
  | nil => intro n acc; simp
  | cons w? l ih =>
    intro n acc
    cases w? with
    | none => simpa [processOpenRecord, selectOpen] using ih n acc
    | some w =>
      by_cases hig : should_ignore_app (w.kCGWindowOwnerName.getD unknownName) ig = true
      · simp [processOpenRecord, selectOpen, hig, ih]
      · by_cases ht : w.kCGWindowName.getD noTitleName = openTitle
        · simp [processOpenRecord, selectOpen, hig, ht, ih]
        · simp [processOpenRecord, selectOpen, hig, ht, ih]

theorem foldl_processOpenRecord_fst (ig : List (List Char)) :
    ∀ (l : List (Option CGWindowRecord)) (n : Nat) (acc : List OpenWindow),
      (l.foldl (processOpenRecord ig) (n, acc)).1 = n + l.countP (countedOpenRecord ig) := by
  intro l
  induction l with
  | nil => intro n acc; simp
  | cons w? l ih =>
    intro n acc
    cases w? with
    | none => simp [processOpenRecord, countedOpenRecord, List.countP_cons, ih]
    | some w =>
      by_cases hig : should_ignore_app (w.kCGWindowOwnerName.getD unknownName) ig = true
      · simp [processOpenRecord, countedOpenRecord, List.countP_cons, hig, ih]
      · by_cases ht : w.kCGWindowName.getD noTitleName = openTitle
        · simp [processOpenRecord, countedOpenRecord, List.countP_cons, hig, ht, ih]
          omega
        · simp [processOpenRecord, countedOpenRecord, List.countP_cons, hig, ht, ih]
          omega

theorem foldl_processSearchRecord_snd (c : WindowSearchCriteria)
    (bl : Int → Option (List Char)) :
    ∀ (l : List (Option CGWindowRecord)) (n : Nat) (acc : List WindowInfo),
      (l.foldl (processSearchRecord c bl) (n, acc)).2 =
        acc ++ l.filterMap (selectSearch c bl) := by
  intro l
  induction l with
  | nil => intro n acc; simp
  | cons w? l ih =>
    intro n acc
    cases w? with
    | none => simpa [processSearchRecord, selectSearch] using ih n acc
    | some w =>
      by_cases hig : should_ignore_app (w.kCGWindowOwnerName.getD []) c.ignored_apps = true
      · simp [processSearchRecord, selectSearch, hig, ih]
      · by_cases hm : c.matches (w.kCGWindowName.getD []) (w.kCGWindowOwnerName.getD []) = true
        · simp [processSearchRecord, selectSearch, hig, hm, ih]
        · simp [processSearchRecord, selectSearch, hig, hm, ih]

theorem foldl_processSearchRecord_fst (c : WindowSearchCriteria)
    (bl : Int → Option (List Char)) :
    ∀ (l : List (Option CGWindowRecord)) (n : Nat) (acc : List WindowInfo),
      (l.foldl (processSearchRecord c bl) (n, acc)).1 =
        n + l.countP (countedSearchRecord c) := by
  intro l
  induction l with
  | nil => intro n acc; simp
  | cons w? l ih =>
    intro n acc
    cases w? with
    | none => simp [processSearchRecord, countedSearchRecord, List.countP_cons, ih]
    | some w =>
      by_cases hig : should_ignore_app (w.kCGWindowOwnerName.getD []) c.ignored_apps = true
      · simp [processSearchRecord, countedSearchRecord, List.countP_cons, hig, ih]
      · by_cases hm : c.matches (w.kCGWindowName.getD []) (w.kCGWindowOwnerName.getD []) = true
        · simp [processSearchRecord, countedSearchRecord, List.countP_cons, hig, hm, ih]
          omega
        · simp [processSearchRecord, countedSearchRecord, List.countP_cons, hig, hm, ih]
          omega

theorem length_filterMap_le_countP {α β : Type} (f : α → Option β) (p : α → Bool)
    (hfp : ∀ a b, f a = some b → p a = true) :
    ∀ l : List α, (l.filterMap f).length ≤ l.countP p := by
  intro l
  induction l with
  | nil => simp
  | cons a l ih =>
    cases hfa : f a with
    | none =>
      rw [List.filterMap_cons_none hfa, List.countP_cons]
      split <;> omega
    | some b =>
      rw [List.filterMap_cons_some hfa, List.countP_cons, hfp a b hfa, if_pos rfl,
        List.length_cons]
      omega

/-! ## Claim theorems -/

/-- C4: for every quadruple of coordinate values `(x, y, w, h)`, parsing
the bounds string produced by the formatter (`"x:{x}, y:{y}, w:{w}, h:{h}"`)
with `parse_bounds_values` returns `Some (x, y, w, h)`: the
coordinate-tuple string format round-trips through the parser. -/
theorem bounds_string_roundtrip (x y w h : Int) :
    parse_bounds_values (formatBounds x y w h) = some ⟨x, y, w, h⟩ :=
  parse_bounds_format x y w h

theorem applyPart_of_no_key {acc : BoundsVals} {part : List Char}
    (hx : strip_pre ['x', ':'] part = none) (hy : strip_pre ['y', ':'] part = none)
    (hw : strip_pre ['w', ':'] part = none) (hh : strip_pre ['h', ':'] part = none) :
    applyPart acc part = some acc := by
  simp [applyPart, hx, hy, hw, hh]

theorem applyPart_none_key {acc : BoundsVals} {part : List Char}
    (hn : applyPart acc part = none) :
    ∃ pre ∈ [['x', ':'], ['y', ':'], ['w', ':'], ['h', ':']],
      ∃ v, strip_pre pre part = some v ∧ parseNumChars v = none := by
  unfold applyPart at hn
  cases hsx : strip_pre ['x', ':'] part with
  | some v =>
    simp only [hsx] at hn
    cases hv : parseNumChars v with
    | some n => simp [hv] at hn
    | none => exact ⟨['x', ':'], by simp, v, hsx, hv⟩
  | none =>
  simp only [hsx] at hn
  cases hsy : strip_pre ['y', ':'] part with
  | some v =>
    simp only [hsy] at hn
    cases hv : parseNumChars v with
    | some n => simp [hv] at hn
    | none => exact ⟨['y', ':'], by simp, v, hsy, hv⟩
  | none =>
  simp only [hsy] at hn
  cases hsw : strip_pre ['w', ':'] part with
  | some v =>
    simp only [hsw] at hn
    cases hv : parseNumChars v with
    | some n => simp [hv] at hn
    | none => exact ⟨['w', ':'], by simp, v, hsw, hv⟩
  | none =>
  simp only [hsw] at hn
  cases hsh : strip_pre ['h', ':'] part with
  | some v =>
    simp only [hsh] at hn
    cases hv : parseNumChars v with
    | some n => simp [hv] at hn
    | none => exact ⟨['h', ':'], by simp, v, hsh, hv⟩
  | none =>
  simp only [hsh] at hn
  simp at hn

theorem foldlM_applyPart_const :
    ∀ (parts : List (List Char)) (acc : BoundsVals),
      (∀ part ∈ parts,
        strip_pre ['x', ':'] part = none ∧ strip_pre ['y', ':'] part = none ∧
        strip_pre ['w', ':'] part = none ∧ strip_pre ['h', ':'] part = none) →
      parts.foldlM applyPart acc = some acc := by
  intro parts
  induction parts with
  | nil => intro acc _; rfl
  | cons p ps ih =>
    intro acc hmem
    obtain ⟨hx, hy, hw, hh⟩ := hmem p (List.mem_cons_self p ps)
    have h1 : applyPart acc p = some acc := applyPart_of_no_key hx hy hw hh
    simp only [List.foldlM, h1, Option.bind]
    exact ih acc (fun q hq => hmem q (List.mem_cons_of_mem p hq))

theorem foldlM_applyPart_none :
    ∀ (parts : List (List Char)) (acc : BoundsVals),
      parts.foldlM applyPart acc = none →
      ∃ part ∈ parts, ∃ pre ∈ [['x', ':'], ['y', ':'], ['w', ':'], ['h', ':']],
        ∃ v, strip_pre pre part = some v ∧ parseNumChars v = none := by
  intro parts
  induction parts with
  | nil => intro acc h; simp [List.foldlM] at h
  | cons p ps ih =>
    intro acc h
    cases hp : applyPart acc p with
    | none =>
      obtain ⟨pre, hpre, v, hv⟩ := applyPart_none_key hp
      exact ⟨p, List.mem_cons_self p ps, pre, hpre, v, hv⟩
    | some acc' =>
      simp only [List.foldlM, hp, Option.bind] at h
      obtain ⟨part, hpart, rest⟩ := ih acc' h
      exact ⟨part, List.mem_cons_of_mem p hpart, rest⟩

/-- C9: a bounds string none of whose `", "`-separated pieces carries one
of the recognised key markers (in particular the sentinel
`"bounds_not_found"` produced when a record lacks bounds) parses to
`Some (0, 0, 0, 0)` rather than `None`; `None` arises only when some
piece carries a recognised marker whose value fails to parse. -/
theorem parse_bounds_missing_defaults :
    (∀ s : List Char,
      (∀ part ∈ splitOnSep sepCS s,
        strip_pre ['x', ':'] part = none ∧ strip_pre ['y', ':'] part = none ∧
        strip_pre ['w', ':'] part = none ∧ strip_pre ['h', ':'] part = none) →
      parse_bounds_values s = some ⟨0, 0, 0, 0⟩) ∧
    (parse_bounds_from_dict none = boundsNotFound ∧
      parse_bounds_values boundsNotFound = some ⟨0, 0, 0, 0⟩) ∧
    (∀ s : List Char, parse_bounds_values s = none →
      ∃ part ∈ splitOnSep sepCS s,
        ∃ pre ∈ [['x', ':'], ['y', ':'], ['w', ':'], ['h', ':']],
          ∃ v, strip_pre pre part = some v ∧ parseNumChars v = none) := by
  refine ⟨?_, ⟨rfl, by decide⟩, ?_⟩
  · intro s hmem
    exact foldlM_applyPart_const _ _ hmem
  · intro s hnone
    exact foldlM_applyPart_none _ _ hnone

theorem parse_bounds_missing_defaults_witness :
    parse_bounds_values ("no bounds here".toList) = some ⟨0, 0, 0, 0⟩ :=
  parse_bounds_missing_defaults.1 _ (by decide)

/-- C3: `should_ignore_app a S` is true exactly when some element of the
ignore set occurs as a substring of the lowercased app name; the check is
case-insensitive and a substring test, not an equality test (witnessed by
`"My Dock"` being matched by the entry `"dock"`). -/
theorem should_ignore_app_iff :
    (∀ (a : List Char) (S : List (List Char)),
      should_ignore_app a S = true ↔
        ∃ ig ∈ S, ∃ u v, u ++ ig ++ v = a.map Char.toLower) ∧
    (should_ignore_app ("My Dock".toList) ["dock".toList] = true ∧
      ("My Dock".toList : List Char) ≠ "dock".toList) := by
  refine ⟨?_, by decide, by decide⟩
  intro a S
  simp only [should_ignore_app, List.any_eq_true, decide_eq_true_eq]
  exact Iff.rfl

theorem should_ignore_app_iff_witness :
    should_ignore_app ("My Dock".toList) get_ignored_apps = true :=
  (should_ignore_app_iff.1 _ _).mpr
    ⟨"dock".toList, by decide, "my ".toList, [], by decide⟩

/-- C2: `WindowSearchCriteria::matches` accepts a window exactly when the
app name is not matched by the ignore-list, the title equals the title
filter whenever one is set, and the app name equals the app-name filter
whenever one is set (so a criteria with neither filter accepts every
non-ignored window). -/
theorem criteria_matches_iff (c : WindowSearchCriteria) (t a : List Char) :
    c.matches t a = true ↔
      (should_ignore_app a c.ignored_apps = false ∧
       (∀ t₀, c.title = some t₀ → t = t₀) ∧
       (∀ a₀, c.app_name = some a₀ → a = a₀)) := by
  unfold WindowSearchCriteria.matches
  cases hig : should_ignore_app a c.ignored_apps with
  | true => simp [hig]
  | false =>
    cases c.title with
    | none =>
      cases c.app_name with
      | none => simp
      | some a₀ => simp [beq_iff_eq]
    | some t₀ =>
      cases c.app_name with
      | none => simp [beq_iff_eq]
      | some a₀ => simp [beq_iff_eq, and_comm]

theorem criteria_matches_iff_witness :
    WindowSearchCriteria.matches ⟨some openTitle, none, get_ignored_apps⟩
      openTitle ("Safari".toList) = true :=
  (criteria_matches_iff ⟨some openTitle, none, get_ignored_apps⟩ openTitle
      ("Safari".toList)).mpr
    ⟨by decide, fun t₀ ht => by cases ht; rfl, fun a₀ ha => by cases ha⟩

/-- C5: for every enumerated window list, `find_open_windows` returns in
`open_windows` exactly the non-null records whose owning-app name is not
matched by the ignore-list and whose title is exactly `"Open"`; a title
merely containing `"Open"` is excluded. -/
theorem find_open_windows_exact (ig : List (List Char)) (l : List (Option CGWindowRecord))
    (r : OpenWindowResults) (hr : find_open_windows ig (some l) = Except.ok r) :
    r.open_windows = l.filterMap (selectOpen ig) := by
  simp only [find_open_windows] at hr
  cases hr
  simpa using foldl_processOpenRecord_snd ig l 0 []

theorem find_open_windows_exact_witness :
    (OpenWindowResults.mk 2
        [{ title := openTitle
           app_name := "TestApp".toList
           bounds := formatBounds 10 20 300 200
           window_number := 42
           pid := 7 }]).open_windows =
      sampleWindowList.filterMap (selectOpen get_ignored_apps) :=
  find_open_windows_exact get_ignored_apps sampleWindowList _ (by rfl)

/-- C8: `find_windows` and `find_open_windows` return `Err` exactly when
the compositor's window-list call yields a null list; every non-null list
yields `Ok`, and a null per-window record is skipped without aborting the
enumeration and without contributing to the result. -/
theorem window_list_error_handling :
    (∀ (c : WindowSearchCriteria) (bl : Int → Option (List Char)),
      find_windows c bl none = Except.error failedListMsg) ∧
    (∀ (c : WindowSearchCriteria) (bl : Int → Option (List Char))
        (l : List (Option CGWindowRecord)),
      ∃ r, find_windows c bl (some l) = Except.ok r) ∧
    (∀ (c : WindowSearchCriteria) (bl : Int → Option (List Char))
        (l₁ l₂ : List (Option CGWindowRecord)),
      find_windows c bl (some (l₁ ++ none :: l₂)) = find_windows c bl (some (l₁ ++ l₂))) ∧
    (∀ ig, find_open_windows ig none = Except.error failedListMsg) ∧
    (∀ ig l, ∃ r, find_open_windows ig (some l) = Except.ok r) ∧
    (∀ ig (l₁ l₂ : List (Option CGWindowRecord)),
      find_open_windows ig (some (l₁ ++ none :: l₂)) = find_open_windows ig (some (l₁ ++ l₂))) := by
  refine ⟨fun c bl => rfl, fun c bl l => ⟨_, rfl⟩, ?_, fun ig => rfl, fun ig l => ⟨_, rfl⟩, ?_⟩
  · intro c bl l₁ l₂
    simp only [find_windows, List.foldl_append, List.foldl_cons]
    rfl
  · intro ig l₁ l₂
    simp only [find_open_windows, List.foldl_append, List.foldl_cons]
    rfl

theorem selectOpen_some_counted (ig : List (List Char)) (w? : Option CGWindowRecord)
    (ow : OpenWindow) (h : selectOpen ig w? = some ow) :
    countedOpenRecord ig w? = true := by
  cases w? with
  | none => simp [selectOpen] at h
  | some w =>
    simp only [selectOpen] at h
    simp only [countedOpenRecord]
    cases hig : should_ignore_app (w.kCGWindowOwnerName.getD unknownName) ig with
    | true => simp [hig] at h
    | false => rfl

theorem selectSearch_some_counted (c : WindowSearchCriteria)
    (bl : Int → Option (List Char)) (w? : Option CGWindowRecord)
    (wi : WindowInfo) (h : selectSearch c bl w? = some wi) :
    countedSearchRecord c w? = true := by
  cases w? with
  | none => simp [selectSearch] at h
  | some w =>
    simp only [selectSearch] at h
    simp only [countedSearchRecord]
    cases hig : should_ignore_app (w.kCGWindowOwnerName.getD []) c.ignored_apps with
    | true => simp [hig] at h
    | false => rfl

/-- C10: in every `Ok` result of `find_open_windows` and `find_windows`,
`total_windows` counts exactly the non-null records whose owning-app name
is not matched by the ignore-list, and the number of matched windows is
at most `total_windows`. -/
theorem total_windows_counts :
    (∀ (ig : List (List Char)) (l : List (Option CGWindowRecord)) (r : OpenWindowResults),
      find_open_windows ig (some l) = Except.ok r →
        r.total_windows = l.countP (countedOpenRecord ig) ∧
        r.open_windows.length ≤ r.total_windows) ∧
    (∀ (c : WindowSearchCriteria) (bl : Int → Option (List Char))
        (l : List (Option CGWindowRecord)) (r : WindowSearchResults),
      find_windows c bl (some l) = Except.ok r →
        r.total_windows = l.countP (countedSearchRecord c) ∧
        r.matched_windows.length ≤ r.total_windows) := by
  constructor
  · intro ig l r hr
    simp only [find_open_windows] at hr
    cases hr
    have h1 := foldl_processOpenRecord_fst ig l 0 []
    have h2 := foldl_processOpenRecord_snd ig l 0 []
    refine ⟨by simpa using h1, ?_⟩
    simp only [h1, h2, List.nil_append, Nat.zero_add]
    exact length_filterMap_le_countP _ _ (selectOpen_some_counted ig) l
  · intro c bl l r hr
    simp only [find_windows] at hr
    cases hr
    have h1 := foldl_processSearchRecord_fst c bl l 0 []
    have h2 := foldl_processSearchRecord_snd c bl l 0 []
    refine ⟨by simpa using h1, ?_⟩
    simp only [h1, h2, List.nil_append, Nat.zero_add]
    exact length_filterMap_le_countP _ _ (selectSearch_some_counted c bl) l

theorem total_windows_counts_witness :
    (OpenWindowResults.mk 2
        [{ title := openTitle
           app_name := "TestApp".toList
           bounds := formatBounds 10 20 300 200
           window_number := 42
           pid := 7 }]).total_windows =
        sampleWindowList.countP (countedOpenRecord get_ignored_apps) ∧
      (OpenWindowResults.mk 2
        [{ title := openTitle
           app_name := "TestApp".toList
           bounds := formatBounds 10 20 300 200
           window_number := 42
           pid := 7 }]).open_windows.length ≤ 2 :=
  total_windows_counts.1 get_ignored_apps sampleWindowList _ (by rfl)

theorem create_overlay_panel_eq (window : OpenWindow) (H : ℚ) (alloc : AllocOutcomes)
    (v : BoundsVals) (hv : parse_bounds_values window.bounds = some v) :
    create_overlay_panel window H alloc =
      if alloc.panel && alloc.content_view && alloc.button then
        some (builtPanel window H alloc.close_button v)
      else none := by
  obtain ⟨ap, acv, ab, acb⟩ := alloc
  simp only [create_overlay_panel, hv, Option.some_bind]
  cases ap <;> cases acv <;> cases ab <;> simp [builtPanel, labelButtonOf, closeButtonOf]

theorem create_overlay_panel_some (window : OpenWindow) (H : ℚ) (alloc : AllocOutcomes)
    (p : NSPanelModel) (hp : create_overlay_panel window H alloc = some p) :
    ∃ v, parse_bounds_values window.bounds = some v ∧
      p = builtPanel window H alloc.close_button v := by
  cases hv : parse_bounds_values window.bounds with
  | none =>
    exfalso
    simp [create_overlay_panel, hv] at hp
  | some v =>
    rw [create_overlay_panel_eq window H alloc v hv] at hp
    cases hcond : (alloc.panel && alloc.content_view && alloc.button) with
    | false => rw [hcond] at hp; simp at hp
    | true =>
      rw [hcond] at hp
      simp only [if_true, Option.some.injEq] at hp
      exact ⟨v, rfl, hp.symm⟩

/-- C1: for a source window whose compositor bounds are the tuple
`(x, y, w, h)` (top-left origin) and a main screen of height `H`, every
panel `create_overlay_panel` returns has frame origin `(x, H - y - h)`
(bottom-left origin) and size `(w + 300, h)`: the height equals the
source window's, the width is the source window's plus the fixed
300-point margin. -/
theorem overlay_panel_frame (x y w h : Int) (H : ℚ) (t a : List Char) (wn pd : Int)
    (alloc : AllocOutcomes) (p : NSPanelModel)
    (hp : create_overlay_panel ⟨t, a, formatBounds x y w h, wn, pd⟩ H alloc = some p) :
    p.frame = ⟨(x : ℚ), H - (y : ℚ) - (h : ℚ), (w : ℚ) + 300, (h : ℚ)⟩ := by
  obtain ⟨v, hv, hpv⟩ := create_overlay_panel_some _ _ _ _ hp
  have hv0 : parse_bounds_values (formatBounds x y w h) = some v := hv
  rw [parse_bounds_format] at hv0
  cases hv0
  rw [hpv]
  rfl

theorem overlay_panel_frame_witness :
    (builtPanel ⟨openTitle, "TestApp".toList, formatBounds 10 20 30 40, 1, 2⟩ 900 true
        ⟨10, 20, 30, 40⟩).frame =
      ⟨((10 : Int) : ℚ), 900 - ((20 : Int) : ℚ) - ((40 : Int) : ℚ),
       ((30 : Int) : ℚ) + 300, ((40 : Int) : ℚ)⟩ :=
  overlay_panel_frame 10 20 30 40 900 openTitle ("TestApp".toList) 1 2
    ⟨true, true, true, true⟩ _ (by rfl)

/-- C7 counterexample: when the close-button allocation yields nil,
`create_overlay_panel` still returns `Some` — a panel with a single
subview and no close control — so "every successfully returned panel
carries a close control" is false as stated. -/
theorem overlay_panel_close_counterexample :
    (create_overlay_panel c7Window 900 ⟨true, true, true, false⟩).isSome = true ∧
    (create_overlay_panel c7Window 900 ⟨true, true, true, false⟩).map
        (fun p => p.contentView.subviews.any
          (fun b => b.action == some ButtonAction.orderOut)) = some false :=
  ⟨rfl, rfl⟩

/-- C7 (amended): every panel `create_overlay_panel` returns is
borderless, non-opaque with alpha value `0.9 < 1`, at window level 10,
and carries a centered label button titled `"PANEL DETECTED: "` followed
by the matched app's name; it also carries a close control (the `✕`
button targeting the panel with the `orderOut:` action) whenever the
close-button allocation succeeds — when that allocation fails the panel
is still returned, without the close control. -/
theorem overlay_panel_attributes (window : OpenWindow) (H : ℚ) (alloc : AllocOutcomes)
    (p : NSPanelModel) (hp : create_overlay_panel window H alloc = some p) :
    p.styleMask = NSWindowStyleMask.borderless ∧
    p.isOpaque = false ∧
    p.alphaValue = 9 / 10 ∧
    p.alphaValue < 1 ∧
    p.level = 10 ∧
    (∃ b ∈ p.contentView.subviews,
      b.buttonTitle = panelDetectedLabel ++ window.app_name ∧
      b.frame.x = (p.frame.width - b.frame.width) / 2 ∧
      b.frame.y = (p.frame.height - b.frame.height) / 2) ∧
    (alloc.close_button = true →
      ∃ b ∈ p.contentView.subviews,
        b.buttonTitle = closeGlyph ∧ b.targetIsPanel = true ∧
        b.action = some ButtonAction.orderOut) := by
  obtain ⟨v, hv, hpv⟩ := create_overlay_panel_some _ _ _ _ hp
  subst hpv
  refine ⟨rfl, rfl, rfl, ?_, rfl, ?_, ?_⟩
  · rw [show (builtPanel window H alloc.close_button v).alphaValue = 9 / 10 from rfl]
    norm_num
  · refine ⟨labelButtonOf window v, ?_, rfl, rfl, rfl⟩
    cases hcb : alloc.close_button <;> simp [builtPanel, hcb]
  · intro hcb
    refine ⟨closeButtonOf v, ?_, rfl, rfl, rfl⟩
    simp [builtPanel, hcb]

theorem overlay_panel_attributes_witness :
    (builtPanel c7Window 900 true ⟨0, 0, 100, 100⟩).styleMask = NSWindowStyleMask.borderless ∧
    (builtPanel c7Window 900 true ⟨0, 0, 100, 100⟩).isOpaque = false ∧
    (builtPanel c7Window 900 true ⟨0, 0, 100, 100⟩).alphaValue = 9 / 10 ∧
    (builtPanel c7Window 900 true ⟨0, 0, 100, 100⟩).alphaValue < 1 ∧
    (builtPanel c7Window 900 true ⟨0, 0, 100, 100⟩).level = 10 ∧
    (∃ b ∈ (builtPanel c7Window 900 true ⟨0, 0, 100, 100⟩).contentView.subviews,
      b.buttonTitle = panelDetectedLabel ++ c7Window.app_name ∧
      b.frame.x = ((builtPanel c7Window 900 true ⟨0, 0, 100, 100⟩).frame.width - b.frame.width) / 2 ∧
      b.frame.y = ((builtPanel c7Window 900 true ⟨0, 0, 100, 100⟩).frame.height - b.frame.height) / 2) ∧
    ((true : Bool) = true →
      ∃ b ∈ (builtPanel c7Window 900 true ⟨0, 0, 100, 100⟩).contentView.subviews,
        b.buttonTitle = closeGlyph ∧ b.targetIsPanel = true ∧
        b.action = some ButtonAction.orderOut) :=
  overlay_panel_attributes c7Window 900 ⟨true, true, true, true⟩ _ (by rfl)

/-- C6: one poll tick of the reconciler closes exactly the overlays whose
window numbers were displayed but are no longer observed, creates
overlays for exactly the newly observed window numbers, and keeps every
overlay whose window number is in both sets untouched (its entry carried
over unchanged). Modelled from the spec: the reconciler is not part of
`src/`. -/
theorem reconcile_diff {α : Type} (create : Int → α) (prev : List (Int × α))
    (observed : List Int) :
    (∀ n : Int,
      n ∈ (reconcile create prev observed).closed.map Prod.fst ↔
        (n ∈ prev.map Prod.fst ∧ n ∉ observed)) ∧
    (∀ (n : Int) (pnl : α),
      (n, pnl) ∈ (reconcile create prev observed).displayed ↔
        (((n, pnl) ∈ prev ∧ n ∈ observed) ∨
         (n ∉ prev.map Prod.fst ∧ n ∈ observed ∧ pnl = create n))) := by
  constructor
  · intro n
    simp only [reconcile, List.mem_map, List.mem_filter, decide_eq_true_eq]
    constructor
    · rintro ⟨⟨m, q⟩, ⟨hmem, hno⟩, rfl⟩
      exact ⟨⟨(m, q), hmem, rfl⟩, hno⟩
    · rintro ⟨⟨⟨m, q⟩, hmem, rfl⟩, hno⟩
      exact ⟨(m, q), ⟨hmem, hno⟩, rfl⟩
  · intro n pnl
    simp only [reconcile, List.mem_append, List.mem_filter, List.mem_map,
      decide_eq_true_eq, Prod.mk.injEq]
    constructor
    · rintro (⟨hmem, hobs⟩ | ⟨m, ⟨hobs, hnp⟩, rfl, rfl⟩)
      · exact Or.inl ⟨hmem, hobs⟩
      · exact Or.inr ⟨hnp, hobs, rfl⟩
    · rintro (⟨hmem, hobs⟩ | ⟨hnp, hobs, rfl⟩)
      · exact Or.inl ⟨hmem, hobs⟩
      · exact Or.inr ⟨n, ⟨hobs, hnp⟩, rfl, rfl⟩

theorem reconcile_diff_witness :
    ((2 : Int), (6 : Int)) ∈
      (reconcile (fun n => n) [((1 : Int), (5 : Int)), (2, 6)] [2, 3]).displayed :=
  ((reconcile_diff (fun n => n) [(1, 5), (2, 6)] [2, 3]).2 2 6).mpr
    (Or.inl ⟨by decide, by decide⟩)
